import Mathlib

/-!
# gokv: the store engine, the query interpreter and the snapshot loader

A shallow embedding of `internal/store/store.go`, `internal/query/query.go`
and `internal/persistence/persistence.go`.

Conventions of the embedding

* The wall clock is an explicit input: every method that calls `time.Now()`
  takes the instant it reads as the argument `now`.  Instants and durations
  are integers counting nanoseconds on one time line (`time.Duration` is an
  `int64` of nanoseconds; `Time.Add` is exact on every instant a running
  process can read).
* A Go `map[string]V` is a finite map; it is represented by its list of
  entries, with pairwise distinct keys.  `range` visits the entries in list
  order; all results are stated through `GoMap.get?`, so they do not depend
  on that order.
* Go strings are represented by Lean strings (sequences of Unicode scalar
  values), i.e. the embedding covers the strings that are valid UTF-8.
* Methods with a pointer receiver are written in state-passing style: they
  take the store and return their Go results paired with the store they
  leave behind.  The mutex is not modelled (one operation runs at a time).
-/

namespace GoKV

/-! ## Time -/

/-- An instant (`time.Time`), in nanoseconds on the time line. -/
abbrev Time := Int

/-- A `time.Duration`: a signed count of nanoseconds. -/
abbrev Duration := Int

/-- The method `t.Add(d)`. -/
def Time.Add (t : Time) (d : Duration) : Time := t + d

/-- The method `t.After(u)`: whether `t` is strictly later than `u`. -/
def Time.After (t u : Time) : Bool := decide (u < t)

/-- The constant `time.Second`. -/
def Second : Duration := 1000000000

/-- The constant `time.Hour`. -/
def Hour : Duration := 3600 * Second

/-! ## Dynamic values and errors -/

/-- A Go `interface{}` value as the store sees it: the nil interface, a
string, or any other dynamic value (numbers, booleans, nested structures),
which the store never inspects and which are drawn from the type `α`. -/
inductive Iface (α : Type) where
  | nil : Iface α
  | str (s : String) : Iface α
  | other (a : α) : Iface α
  deriving DecidableEq, Repr

/-- A Go `error`: `none` is the nil error, `some msg` an error whose text is `msg`. -/
abbrev Error := Option String

/-! ## Go maps with string keys -/

/-- First value bound to `k` in a list of entries. -/
def lookupList {V : Type} (k : String) : List (String × V) → Option V
  | [] => none
  | (k', v) :: rest => if k' = k then some v else lookupList k rest

/-- The entries whose key differs from `k`. -/
def eraseList {V : Type} (k : String) (l : List (String × V)) : List (String × V) :=
  l.filter (fun e => decide (e.1 ≠ k))

/-- A Go `map[string]V`: finitely many entries with pairwise distinct keys. -/
structure GoMap (V : Type) where
  entries : List (String × V)
  nodupKeys : (entries.map Prod.fst).Nodup

namespace GoMap

variable {V : Type}

/-- The expression `make(map[string]V)`, also the nil map when read. -/
def empty : GoMap V := ⟨[], List.nodup_nil⟩

/-- The lookup `v, ok := m[k]`, as an option. -/
def get? (m : GoMap V) (k : String) : Option V := lookupList k m.entries

/-- The statement `delete(m, k)`. -/
def delete (m : GoMap V) (k : String) : GoMap V :=
  ⟨eraseList k m.entries,
    List.Nodup.sublist (List.Sublist.map Prod.fst (List.filter_sublist m.entries)) m.nodupKeys⟩

/-- The assignment `m[k] = v`. -/
def insert (m : GoMap V) (k : String) (v : V) : GoMap V :=
  ⟨(k, v) :: eraseList k m.entries, by
    rw [List.map_cons, List.nodup_cons]
    refine ⟨?_, List.Nodup.sublist
      (List.Sublist.map Prod.fst (List.filter_sublist m.entries)) m.nodupKeys⟩
    simp [eraseList, List.mem_map, List.mem_filter]⟩

end GoMap

/-! ## internal/store/store.go -/

/-- The struct `Value`. -/
structure Value (α : Type) where
  Data : Iface α
  ExpiresAt : Time
  deriving DecidableEq, Repr

/-- The struct `Store` (its mutex left out). -/
structure Store (α : Type) where
  data : GoMap (Value α)

namespace Store

variable {α : Type}

/-- The method `Set`: returns the (always nil) error and the updated store. -/
def Set (s : Store α) (now : Time) (key : String) (value : Iface α) (ttl : Duration) :
    Error × Store α :=
  let expiresAt := now.Add ttl
  (none, ⟨s.data.insert key ⟨value, expiresAt⟩⟩)

/-- The method `Get`: returns `(value, found)` and the store, which it only reads. -/
def Get (s : Store α) (now : Time) (key : String) : (Iface α × Bool) × Store α :=
  match s.data.get? key with
  | none => ((Iface.nil, false), s)
  | some value =>
    if now.After value.ExpiresAt then ((Iface.nil, false), s)
    else ((value.Data, true), s)

/-- The method `Delete`. -/
def Delete (s : Store α) (key : String) : Error × Store α :=
  (none, ⟨s.data.delete key⟩)

/-- The method `cleanupExpired`: one sweep, reading the clock once. -/
def cleanupExpired (s : Store α) (now : Time) : Store α :=
  ⟨s.data.entries.foldl
    (fun m e => if now.After e.2.ExpiresAt then m.delete e.1 else m) s.data⟩

/-- The method `GetAll`: a fresh map filled by ranging over `s.data`. -/
def GetAll (s : Store α) : GoMap (Value α) × Store α :=
  (s.data.entries.foldl (fun result e => result.insert e.1 e.2) GoMap.empty, s)

/-- The method `SetAll`: `s.data` becomes a fresh map filled from `data`. -/
def SetAll (_s : Store α) (data : GoMap (Value α)) : Store α :=
  ⟨data.entries.foldl (fun m e => m.insert e.1 e.2) GoMap.empty⟩

end Store

/-! ## Library functions used by the query interpreter -/

/-- The function `unicode.IsSpace`: the Latin-1 space characters, then the
other code points with the White_Space property. -/
def IsSpace (c : Char) : Bool :=
  let r := c.toNat
  if r ≤ 0xFF then
    r == 0x09 || r == 0x0A || r == 0x0B || r == 0x0C || r == 0x0D || r == 0x20
      || r == 0x85 || r == 0xA0
  else
    r == 0x1680 || (0x2000 ≤ r && r ≤ 0x200A) || r == 0x2028 || r == 0x2029
      || r == 0x202F || r == 0x205F || r == 0x3000

/-- The scan of `strings.Fields`: `cur` is the field being read. -/
def fieldsFrom (cur : List Char) : List Char → List (List Char)
  | [] => if cur = [] then [] else [cur]
  | c :: cs =>
    if IsSpace c then
      if cur = [] then fieldsFrom [] cs else cur :: fieldsFrom [] cs
    else fieldsFrom (cur ++ [c]) cs

/-- The function `strings.Fields`: the maximal runs of non-space characters. -/
def Fields (s : String) : List String :=
  (fieldsFrom [] s.data).map String.mk

/-- The function `unicode.ToUpper` on one character.  ASCII is handled
inline, as in the library; for the other characters the library consults its
case tables, which are the parameter `caseTable`. -/
def ToUpperRune (caseTable : Char → Char) (c : Char) : Char :=
  if c.toNat ≤ 0x7F then
    if 0x61 ≤ c.toNat ∧ c.toNat ≤ 0x7A then Char.ofNat (c.toNat - 32) else c
  else caseTable c

/-- The function `strings.ToUpper`. -/
def ToUpper (caseTable : Char → Char) (s : String) : String :=
  String.mk (s.data.map (ToUpperRune caseTable))

/-- The function `strings.HasPrefix`. -/
def HasPrefix (s pfx : String) : Bool :=
  List.isPrefixOf pfx.data s.data

/-- A token of the query language: a non-empty string without any space
character, i.e. a string that `strings.Fields` returns as a single field. -/
def isToken (w : String) : Bool :=
  !w.data.isEmpty && w.data.all (fun c => !IsSpace c)

/-! ## internal/query/query.go -/

/-- What `Execute` returns in its `interface{}` result: a plain dynamic
value (nil included) or, for SCAN, a `map[string]interface{}`. -/
inductive Reply (α : Type) where
  | value (v : Iface α) : Reply α
  | mapping (m : GoMap (Iface α)) : Reply α

/-- The method `executeGet`. -/
def executeGet {α : Type} (s : Store α) (now : Time) (key : String) :
    (Reply α × Error) × Store α :=
  let r := s.Get now key
  if !r.1.2 then ((Reply.value Iface.nil, some "key not found"), r.2)
  else ((Reply.value r.1.1, none), r.2)

/-- The method `executeSet`: the error of `Store.Set` is dropped. -/
def executeSet {α : Type} (s : Store α) (now : Time) (key : String) (value : Iface α)
    (ttl : Duration) : Error × Store α :=
  (none, (s.Set now key value ttl).2)

/-- The method `executeDelete`: the error of `Store.Delete` is dropped. -/
def executeDelete {α : Type} (s : Store α) (key : String) : Error × Store α :=
  (none, (s.Delete key).2)

/-- The method `executeScan`: ranges over `GetAll()` and keeps the keys
that start with `pfx`. -/
def executeScan {α : Type} (s : Store α) (pfx : String) :
    (GoMap (Iface α) × Error) × Store α :=
  let r := s.GetAll
  let allData := r.1
  let result := allData.entries.foldl
    (fun result e => if HasPrefix e.1 pfx then result.insert e.1 e.2.Data else result)
    GoMap.empty
  ((result, none), r.2)

/-- The method `Execute`.  `parseDuration` is `time.ParseDuration` (`none`
when it returns an error) and `caseTable` the case tables of `unicode`.
The patterns on `parts` are the length tests of the source: `[_, key]` is
`len(parts) == 2`, fewer than two arguments is `len(parts) < 3`, and the
TTL literal is read only when `len(parts) == 4`. -/
def Execute {α : Type} (caseTable : Char → Char) (parseDuration : String → Option Duration)
    (s : Store α) (now : Time) (queryString : String) : (Reply α × Error) × Store α :=
  let parts := Fields queryString
  match parts with
  | [] => ((Reply.value Iface.nil, some "empty query"), s)
  | keyword :: args =>
    let command := ToUpper caseTable keyword
    if command = "GET" then
      match args with
      | [key] => executeGet s now key
      | _ => ((Reply.value Iface.nil, some "GET query should have exactly one argument"), s)
    else if command = "SET" then
      match args with
      | key :: value :: rest =>
        match rest with
        | [literal] =>
          match parseDuration literal with
          | none => ((Reply.value Iface.nil, some "invalid TTL format"), s)
          | some duration =>
            let r := executeSet s now key (Iface.str value) duration
            ((Reply.value Iface.nil, r.1), r.2)
        | _ =>
          let r := executeSet s now key (Iface.str value) (24 * Hour)
          ((Reply.value Iface.nil, r.1), r.2)
      | _ => ((Reply.value Iface.nil, some "SET query should have at least two arguments"), s)
    else if command = "DELETE" then
      match args with
      | [key] =>
        let r := executeDelete s key
        ((Reply.value Iface.nil, r.1), r.2)
      | _ => ((Reply.value Iface.nil, some "DELETE query should have exactly one argument"), s)
    else if command = "SCAN" then
      match args with
      | [pfx] =>
        let r := executeScan s pfx
        ((Reply.mapping r.1.1, r.1.2), r.2)
      | _ => ((Reply.value Iface.nil, some "SCAN query should have exactly one argument"), s)
    else ((Reply.value Iface.nil, some "unknown command"), s)

/-! ## internal/persistence/persistence.go -/

/-- An error of `os.ReadFile`, with the verdict of `os.IsNotExist` on it. -/
structure ReadError where
  msg : String
  isNotExist : Bool

/-- The method `Load`.  `readFile` is what `os.ReadFile(p.filename)`
returned and `unmarshal` is `json.Unmarshal` into a `map[string]store.Value`
(a decoded JSON `null` leaves the nil map, which is `GoMap.empty`). -/
def Load {α : Type} (unmarshal : List UInt8 → Except String (GoMap (Value α)))
    (readFile : Except ReadError (List UInt8)) (s : Store α) : Error × Store α :=
  match readFile with
  | Except.error err =>
    if err.isNotExist then (none, s) else (some err.msg, s)
  | Except.ok jsonData =>
    match unmarshal jsonData with
    | Except.error err => (some err, s)
    | Except.ok data => (none, s.SetAll data)

/-- Reading a file that is modelled as an optional byte string: an absent
file gives an error that `os.IsNotExist` accepts. -/
def readFileOf (file : Option (List UInt8)) : Except ReadError (List UInt8) :=
  match file with
  | none => Except.error ⟨"no such file or directory", true⟩
  | some bytes => Except.ok bytes

/-! ## Lemmas on Go maps -/

theorem lookupList_eraseList {V : Type} (k k' : String) (l : List (String × V)) :
    lookupList k' (eraseList k l) = if k' = k then none else lookupList k' l := by
  induction l with
  | nil => simp [eraseList, lookupList]
  | cons e rest ih =>
    obtain ⟨k0, v0⟩ := e
    by_cases h0 : k0 = k
    · subst h0
      have hstep : eraseList k0 ((k0, v0) :: rest) = eraseList k0 rest := by
        simp [eraseList]
      rw [hstep, ih]
      by_cases h1 : k' = k0
      · simp [h1]
      · have h2 : ¬ k0 = k' := fun h => h1 h.symm
        simp [h1, h2, lookupList]
    · have hstep : eraseList k ((k0, v0) :: rest) = (k0, v0) :: eraseList k rest := by
        simp [eraseList, h0]
      rw [hstep]
      by_cases h1 : k0 = k'
      · subst h1
        simp [lookupList, h0]
      · simp only [lookupList, h1, if_false]
        exact ih

theorem lookupList_eq_none_of_not_mem {V : Type} (k : String) (l : List (String × V))
    (h : k ∉ l.map Prod.fst) : lookupList k l = none := by
  induction l with
  | nil => rfl
  | cons e rest ih =>
    obtain ⟨k0, v0⟩ := e
    simp only [List.map_cons, List.mem_cons, not_or] at h
    have h0 : ¬ k0 = k := fun h1 => h.1 h1.symm
    simp only [lookupList, h0, if_false]
    exact ih h.2

namespace GoMap

variable {V : Type}

theorem get?_empty (k : String) : (GoMap.empty : GoMap V).get? k = none := rfl

theorem get?_insert (m : GoMap V) (k k' : String) (v : V) :
    (m.insert k v).get? k' = if k = k' then some v else m.get? k' := by
  by_cases h : k = k'
  · simp [get?, insert, lookupList, h]
  · have h1 : ¬ k' = k := fun h2 => h h2.symm
    simp [get?, insert, lookupList, h, lookupList_eraseList, h1]

theorem get?_delete (m : GoMap V) (k k' : String) :
    (m.delete k).get? k' = if k = k' then none else m.get? k' := by
  by_cases h : k = k'
  · simp [get?, delete, lookupList_eraseList, h]
  · have h1 : ¬ k' = k := fun h2 => h h2.symm
    simp [get?, delete, lookupList_eraseList, h, h1]

end GoMap

/-- Ranging over entries with distinct keys, with a loop body that touches
only the key of the entry it visits: the binding of `k` afterwards is the
body's effect on the one entry of key `k`, if there is one. -/
theorem get?_foldl_range {V W : Type} (upd : GoMap W → String × V → GoMap W)
    (eff : String → V → Option W → Option W)
    (hupd : ∀ (m : GoMap W) (e : String × V) (k : String),
      (upd m e).get? k = if e.1 = k then eff e.1 e.2 (m.get? k) else m.get? k)
    (l : List (String × V)) (hl : (l.map Prod.fst).Nodup) (init : GoMap W) (k : String) :
    (l.foldl upd init).get? k =
      match lookupList k l with
      | some v => eff k v (init.get? k)
      | none => init.get? k := by
  induction l generalizing init with
  | nil => rfl
  | cons e rest ih =>
    obtain ⟨k0, v0⟩ := e
    rw [List.map_cons, List.nodup_cons] at hl
    rw [List.foldl_cons, ih hl.2]
    by_cases h0 : k0 = k
    · subst h0
      rw [lookupList_eq_none_of_not_mem k0 rest hl.1]
      simp [lookupList, hupd]
    · simp only [lookupList, h0, if_false, hupd]

namespace Store

variable {α : Type}

theorem get?_cleanupExpired (s : Store α) (now : Time) (k : String) :
    (s.cleanupExpired now).data.get? k =
      match s.data.get? k with
      | some v => if now.After v.ExpiresAt then none else some v
      | none => none := by
  unfold cleanupExpired
  simp only
  rw [get?_foldl_range
    (fun m e => if now.After e.2.ExpiresAt then m.delete e.1 else m)
    (fun _ v old => if now.After v.ExpiresAt then none else old) _
    s.data.entries s.data.nodupKeys s.data k]
  · unfold GoMap.get?
    cases h : lookupList k s.data.entries <;> simp
  · intro m e k1
    by_cases h1 : now.After e.2.ExpiresAt = true
    · simp [h1, GoMap.get?_delete]
    · simp [h1]

theorem get?_copy (data : GoMap (Value α)) (k : String) :
    (data.entries.foldl (fun m e => m.insert e.1 e.2) GoMap.empty).get? k = data.get? k := by
  rw [get?_foldl_range (fun (m : GoMap (Value α)) e => m.insert e.1 e.2)
    (fun _ v _ => some v) _ data.entries data.nodupKeys GoMap.empty k]
  · unfold GoMap.get?
    cases h : lookupList k data.entries <;> simp [GoMap.empty, lookupList]
  · intro m e k1
    simp [GoMap.get?_insert]

theorem get?_GetAll (s : Store α) (k : String) : s.GetAll.1.get? k = s.data.get? k :=
  get?_copy s.data k

theorem get?_SetAll (s : Store α) (data : GoMap (Value α)) (k : String) :
    (s.SetAll data).data.get? k = data.get? k :=
  get?_copy data k

end Store

/-! ## Lemmas on `strings.Fields` -/

theorem fieldsFrom_append_nonspace (tok : List Char) (htok : ∀ c ∈ tok, IsSpace c = false)
    (cur rest : List Char) : fieldsFrom cur (tok ++ rest) = fieldsFrom (cur ++ tok) rest := by
  induction tok generalizing cur with
  | nil => simp
  | cons c cs ih =>
    have hc : IsSpace c = false := htok c (List.mem_cons_self c cs)
    have hcs : ∀ d ∈ cs, IsSpace d = false := fun d hd => htok d (List.mem_cons_of_mem c hd)
    rw [List.cons_append, fieldsFrom]
    simp only [hc, Bool.false_eq_true, if_false]
    rw [ih hcs]
    simp

theorem fieldsFrom_blank (cur rest : List Char) (hcur : cur ≠ []) :
    fieldsFrom cur (' ' :: rest) = cur :: fieldsFrom [] rest := by
  have hsp : IsSpace ' ' = true := by decide
  rw [fieldsFrom]
  simp [hsp, hcur]

theorem isToken_spec (w : String) (hw : isToken w = true) :
    w.data ≠ [] ∧ ∀ c ∈ w.data, IsSpace c = false := by
  unfold isToken at hw
  simp only [Bool.and_eq_true, Bool.not_eq_true', List.all_eq_true] at hw
  refine ⟨?_, hw.2⟩
  intro h
  rw [h] at hw
  simp at hw

/-- A token followed by a blank is the first field of what it starts. -/
theorem fieldsFrom_token_blank (w : String) (hw : isToken w = true) (rest : List Char) :
    fieldsFrom [] (w.data ++ ' ' :: rest) = w.data :: fieldsFrom [] rest := by
  obtain ⟨hne, hns⟩ := isToken_spec w hw
  rw [fieldsFrom_append_nonspace w.data hns, List.nil_append, fieldsFrom_blank _ _ hne]

/-- A token alone is its own single field. -/
theorem fieldsFrom_token (w : String) (hw : isToken w = true) :
    fieldsFrom [] w.data = [w.data] := by
  obtain ⟨hne, hns⟩ := isToken_spec w hw
  have h := fieldsFrom_append_nonspace w.data hns [] []
  rw [List.append_nil, List.nil_append] at h
  rw [h, fieldsFrom]
  simp [hne]

theorem Fields_two (w1 w2 : String) (h1 : isToken w1 = true) (h2 : isToken w2 = true) :
    Fields (w1 ++ " " ++ w2) = [w1, w2] := by
  unfold Fields
  have hdata : (w1 ++ " " ++ w2).data = w1.data ++ ' ' :: w2.data := by
    simp [String.data_append]
  rw [hdata, fieldsFrom_token_blank w1 h1, fieldsFrom_token w2 h2]
  rfl

theorem Fields_three (w1 w2 w3 : String) (h1 : isToken w1 = true) (h2 : isToken w2 = true)
    (h3 : isToken w3 = true) : Fields (w1 ++ " " ++ w2 ++ " " ++ w3) = [w1, w2, w3] := by
  unfold Fields
  have hdata : (w1 ++ " " ++ w2 ++ " " ++ w3).data
      = w1.data ++ ' ' :: (w2.data ++ ' ' :: w3.data) := by
    simp [String.data_append]
  rw [hdata, fieldsFrom_token_blank w1 h1, fieldsFrom_token_blank w2 h2,
    fieldsFrom_token w3 h3]
  rfl

theorem Fields_four (w1 w2 w3 w4 : String) (h1 : isToken w1 = true) (h2 : isToken w2 = true)
    (h3 : isToken w3 = true) (h4 : isToken w4 = true) :
    Fields (w1 ++ " " ++ w2 ++ " " ++ w3 ++ " " ++ w4) = [w1, w2, w3, w4] := by
  unfold Fields
  have hdata : (w1 ++ " " ++ w2 ++ " " ++ w3 ++ " " ++ w4).data
      = w1.data ++ ' ' :: (w2.data ++ ' ' :: (w3.data ++ ' ' :: w4.data)) := by
    simp [String.data_append]
  rw [hdata, fieldsFrom_token_blank w1 h1, fieldsFrom_token_blank w2 h2,
    fieldsFrom_token_blank w3 h3, fieldsFrom_token w4 h4]
  rfl

theorem ToUpper_GET (caseTable : Char → Char) : ToUpper caseTable "GET" = "GET" := by
  rfl

theorem ToUpper_SET (caseTable : Char → Char) : ToUpper caseTable "SET" = "SET" := by
  rfl

theorem ToUpper_SCAN (caseTable : Char → Char) : ToUpper caseTable "SCAN" = "SCAN" := by
  rfl

theorem day_eq : 24 * Hour = 86400000000000 := by decide

/-! ## Lemmas on the query interpreter -/

theorem get?_executeScan {α : Type} (s : Store α) (pfx k : String) :
    (executeScan s pfx).1.1.get? k =
      match s.data.get? k with
      | some e => if HasPrefix k pfx then some e.Data else none
      | none => none := by
  unfold executeScan
  simp only
  rw [get?_foldl_range
    (fun (result : GoMap (Iface α)) (e : String × Value α) =>
      if HasPrefix e.1 pfx then result.insert e.1 e.2.Data else result)
    (fun k1 v old => if HasPrefix k1 pfx then some v.Data else old) _
    s.GetAll.1.entries s.GetAll.1.nodupKeys GoMap.empty k]
  · have h : lookupList k s.GetAll.1.entries = s.data.get? k := Store.get?_GetAll s k
    rw [h]
    cases s.data.get? k <;> simp [GoMap.get?_empty]
  · intro m e k1
    by_cases h1 : HasPrefix e.1 pfx = true
    · simp [h1, GoMap.get?_insert]
    · simp [h1]

theorem Execute_SET_ttl {α : Type} (caseTable : Char → Char)
    (parseDuration : String → Option Duration) (s : Store α) (now : Time)
    (k v d : String) (D : Duration) (hk : isToken k = true) (hv : isToken v = true)
    (hd : isToken d = true) (hparse : parseDuration d = some D) :
    Execute caseTable parseDuration s now ("SET" ++ " " ++ k ++ " " ++ v ++ " " ++ d)
      = ((Reply.value Iface.nil, none), (s.Set now k (Iface.str v) D).2) := by
  unfold Execute
  rw [Fields_four "SET" k v d (by decide) hk hv hd]
  simp [ToUpper_SET, hparse, executeSet]

theorem Execute_SET_default {α : Type} (caseTable : Char → Char)
    (parseDuration : String → Option Duration) (s : Store α) (now : Time)
    (k v : String) (hk : isToken k = true) (hv : isToken v = true) :
    Execute caseTable parseDuration s now ("SET" ++ " " ++ k ++ " " ++ v)
      = ((Reply.value Iface.nil, none), (s.Set now k (Iface.str v) (24 * Hour)).2) := by
  unfold Execute
  rw [Fields_three "SET" k v (by decide) hk hv]
  simp [ToUpper_SET, executeSet]

theorem Execute_GET {α : Type} (caseTable : Char → Char)
    (parseDuration : String → Option Duration) (s : Store α) (now : Time)
    (k : String) (hk : isToken k = true) :
    Execute caseTable parseDuration s now ("GET" ++ " " ++ k) = executeGet s now k := by
  unfold Execute
  rw [Fields_two "GET" k (by decide) hk]
  simp [ToUpper_GET]

/-! ## The store contract -/

/-- C1: with the clock an explicit input, `Set(k, v, ttl)` with `ttl > 0` run
at instant `t` returns no error, and a `Get(k)` that runs next, at any
instant `t'` with `t ≤ t' ≤ t + ttl`, returns `(v, true)`. -/
theorem set_then_get_within_ttl {α : Type} (s : Store α) (k : String) (v : Iface α)
    (ttl : Duration) (t t' : Time) (_httl : 0 < ttl) (_hle : t ≤ t') (hlive : t' ≤ t + ttl) :
    (s.Set t k v ttl).1 = none ∧ ((s.Set t k v ttl).2.Get t' k).1 = (v, true) := by
  have hnot : ¬ (t + ttl < t') := not_lt.mpr hlive
  simp [Store.Set, Store.Get, GoMap.get?_insert, Time.After, Time.Add, hnot]

theorem set_then_get_within_ttl_witness :
    ((⟨GoMap.empty⟩ : Store Unit).Set 100 "foo" (Iface.str "bar") 5).1 = none ∧
      (((⟨GoMap.empty⟩ : Store Unit).Set 100 "foo" (Iface.str "bar") 5).2.Get 103 "foo").1
        = (Iface.str "bar", true) :=
  set_then_get_within_ttl ⟨GoMap.empty⟩ "foo" (Iface.str "bar") 5 100 103
    (by decide) (by decide) (by decide)

/-- C2, as stated, fails: after `Set(k, v, 0)` at instant 100 a `Get(k)` at
the same instant 100 returns `(v, true)`, not `(nil, false)`. -/
theorem zero_ttl_get_at_same_instant_finds :
    (((⟨GoMap.empty⟩ : Store Unit).Set 100 "foo" (Iface.str "bar") 0).2.Get 100 "foo").1
        = (Iface.str "bar", true) ∧
      (((⟨GoMap.empty⟩ : Store Unit).Set 100 "foo" (Iface.str "bar") 0).2.Get 100 "foo").1
        ≠ (Iface.nil, false) := by
  constructor <;> simp [Store.Set, Store.Get, GoMap.get?_insert, Time.After, Time.Add]

/-- C2, amended: after `Set(k, v, 0)` at instant `t`, `Get(k)` at every
instant `t'` strictly later than `t` returns `(nil, false)`, while `Get(k)`
at the instant `t` itself still returns `(v, true)`. -/
theorem zero_ttl_absent_after_set_instant {α : Type} (s : Store α) (k : String)
    (v : Iface α) (t t' : Time) (hlt : t < t') :
    ((s.Set t k v 0).2.Get t' k).1 = (Iface.nil, false) ∧
      ((s.Set t k v 0).2.Get t k).1 = (v, true) := by
  simp [Store.Set, Store.Get, GoMap.get?_insert, Time.After, Time.Add, hlt]

theorem zero_ttl_absent_after_set_instant_witness :
    (((⟨GoMap.empty⟩ : Store Unit).Set 100 "foo" (Iface.str "bar") 0).2.Get 101 "foo").1
        = (Iface.nil, false) ∧
      (((⟨GoMap.empty⟩ : Store Unit).Set 100 "foo" (Iface.str "bar") 0).2.Get 100 "foo").1
        = (Iface.str "bar", true) :=
  zero_ttl_absent_after_set_instant ⟨GoMap.empty⟩ "foo" (Iface.str "bar") 100 101 (by decide)

/-- C3: whatever the store holds for `k` (a live entry, an expired one or
nothing), `Delete(k)` returns no error and a `Get(k)` that follows, at any
instant, returns `(nil, false)`. -/
theorem delete_then_get_absent {α : Type} (s : Store α) (k : String) (now : Time) :
    (s.Delete k).1 = none ∧ ((s.Delete k).2.Get now k).1 = (Iface.nil, false) := by
  simp [Store.Delete, Store.Get, GoMap.get?_delete]

/-- C4: the sweep is exact.  After `cleanupExpired` at instant `now`, a key is
bound exactly when it was bound before to an entry whose `ExpiresAt` is not
strictly before `now`, and it is then bound to that same entry (same `Data`,
same `ExpiresAt`); entries with `now > ExpiresAt` are gone and no key is
added. -/
theorem cleanupExpired_exact {α : Type} (s : Store α) (now : Time) (k : String) :
    (s.cleanupExpired now).data.get? k =
      match s.data.get? k with
      | some e => if e.ExpiresAt < now then none else some e
      | none => none := by
  rw [Store.get?_cleanupExpired]
  cases s.data.get? k <;> simp [Time.After]

/-- C5: `SetAll(GetAll(s))` applied to any store `target` leaves it with, for
every key, exactly the binding of `s` (same `Data`, same `ExpiresAt`, expired
entries included, nothing where `s` has nothing, whatever `target` held), and
`GetAll` hands back `s` unchanged. -/
theorem getAll_setAll_roundtrip {α : Type} (s target : Store α) (k : String) :
    (target.SetAll s.GetAll.1).data.get? k = s.data.get? k ∧ s.GetAll.2 = s := by
  refine ⟨?_, rfl⟩
  rw [Store.get?_SetAll, Store.get?_GetAll]

/-! ## The query interpreter -/

/-- SCAN without the clock: the mapping `executeScan` returns binds `k` exactly
when the store binds `k` and `k` starts with the prefix, to the entry's
`Data`, whatever the entry's `ExpiresAt`. -/
theorem scan_returns_stored_matches {α : Type} (caseTable : Char → Char)
    (parseDuration : String → Option Duration) (s : Store α) (now : Time)
    (p : String) (hp : isToken p = true) :
    ∃ m : GoMap (Iface α),
      Execute caseTable parseDuration s now ("SCAN" ++ " " ++ p)
        = ((Reply.mapping m, none), s) ∧
      ∀ k, m.get? k =
        match s.data.get? k with
        | some e => if HasPrefix k p then some e.Data else none
        | none => none := by
  refine ⟨(executeScan s p).1.1, ?_, fun k => get?_executeScan s p k⟩
  unfold Execute
  rw [Fields_two "SCAN" p (by decide) hp]
  have h1 : ¬ ("SCAN" = "GET") := by decide
  have h2 : ¬ ("SCAN" = "SET") := by decide
  have h3 : ¬ ("SCAN" = "DELETE") := by decide
  simp [ToUpper_SCAN, h1, h2, h3, executeScan, Store.GetAll]

/-- The example of the specification: over the live entries a1: x, a2: y,
b1: z, `SCAN a` returns no error and exactly the mapping a1: x, a2: y. -/
theorem scan_example_all_live :
    ∃ m : GoMap (Iface Unit),
      Execute id (fun _ => none)
        (⟨((GoMap.empty.insert "a1" ⟨Iface.str "x", 50⟩).insert "a2"
          ⟨Iface.str "y", 50⟩).insert "b1" ⟨Iface.str "z", 50⟩⟩ : Store Unit) 10 "SCAN a"
        = ((Reply.mapping m, none),
          ⟨((GoMap.empty.insert "a1" ⟨Iface.str "x", 50⟩).insert "a2"
            ⟨Iface.str "y", 50⟩).insert "b1" ⟨Iface.str "z", 50⟩⟩) ∧
      ∀ k, m.get? k =
        if k = "a1" then some (Iface.str "x")
        else if k = "a2" then some (Iface.str "y") else none := by
  obtain ⟨m, hm, hget⟩ := scan_returns_stored_matches id (fun _ => none)
    (⟨((GoMap.empty.insert "a1" ⟨Iface.str "x", 50⟩).insert "a2"
      ⟨Iface.str "y", 50⟩).insert "b1" ⟨Iface.str "z", 50⟩⟩ : Store Unit) 10 "a" (by decide)
  refine ⟨m, hm, fun k => ?_⟩
  rw [hget]
  simp only [GoMap.get?_insert, GoMap.get?_empty]
  by_cases hb : "b1" = k
  · subst hb
    decide
  · by_cases h2 : "a2" = k
    · subst h2
      decide
    · by_cases h1 : "a1" = k
      · subst h1
        decide
      · have h1b : ¬ k = "a1" := fun h => h1 h.symm
        have h2b : ¬ k = "a2" := fun h => h2 h.symm
        simp [hb, h1, h2, h1b, h2b]

/-- C6 fails on the code: with the store holding only a1: x with `ExpiresAt`
5, at instant 10 the entry is expired (`Get` reports it absent) and yet
`SCAN a` returns, without error, a mapping that binds a1 to x. -/
theorem scan_returns_expired_entry :
    ((⟨GoMap.empty.insert "a1" ⟨Iface.str "x", 5⟩⟩ : Store Unit).Get 10 "a1").1
        = (Iface.nil, false) ∧
      ∃ m : GoMap (Iface Unit),
        (Execute id (fun _ => none)
          (⟨GoMap.empty.insert "a1" ⟨Iface.str "x", 5⟩⟩ : Store Unit) 10 "SCAN a").1
          = (Reply.mapping m, none) ∧
        m.get? "a1" = some (Iface.str "x") :=
  ⟨by decide, _, rfl, by decide⟩

/-- C7, as stated, fails: `SET k v 10s extra` has four arguments, yet
`Execute` returns no error and changes the store: it binds k to v, with the
default expiry of 24 hours (the literal 10s is not read). -/
theorem set_with_four_arguments_accepted :
    Fields "SET k v 10s extra" = ["SET", "k", "v", "10s", "extra"] ∧
      (Execute id (fun w => if w = "10s" then some (10 * Second) else none)
        (⟨GoMap.empty⟩ : Store Unit) 7 "SET k v 10s extra").1.2 = none ∧
      (Execute id (fun w => if w = "10s" then some (10 * Second) else none)
        (⟨GoMap.empty⟩ : Store Unit) 7 "SET k v 10s extra").2.data.get? "k"
        = some ⟨Iface.str "v", 7 + 86400000000000⟩ ∧
      (⟨GoMap.empty⟩ : Store Unit).data.get? "k" = none := by
  decide

/-- C7, amended: a query whose keyword upper-cases to GET, DELETE or SCAN and
whose number of arguments is not exactly 1, and a query whose keyword
upper-cases to SET and that has fewer than 2 arguments, is rejected:
`Execute` returns a nil result with an error and leaves the store as it was. -/
theorem execute_rejects_wrong_arity {α : Type} (caseTable : Char → Char)
    (parseDuration : String → Option Duration) (s : Store α) (now : Time)
    (q keyword : String) (args : List String) (hparts : Fields q = keyword :: args)
    (hbad : ((ToUpper caseTable keyword = "GET" ∨ ToUpper caseTable keyword = "DELETE"
          ∨ ToUpper caseTable keyword = "SCAN") ∧ args.length ≠ 1)
        ∨ (ToUpper caseTable keyword = "SET" ∧ args.length < 2)) :
    (Execute caseTable parseDuration s now q).1.1 = Reply.value Iface.nil ∧
      (Execute caseTable parseDuration s now q).1.2 ≠ none ∧
      (Execute caseTable parseDuration s now q).2 = s := by
  have h1 : ¬ ("DELETE" = "GET") := by decide
  have h2 : ¬ ("DELETE" = "SET") := by decide
  have h3 : ¬ ("SCAN" = "GET") := by decide
  have h4 : ¬ ("SCAN" = "SET") := by decide
  have h5 : ¬ ("SCAN" = "DELETE") := by decide
  have h6 : ¬ ("SET" = "GET") := by decide
  unfold Execute
  rw [hparts]
  rcases hbad with ⟨hkw, hlen⟩ | ⟨hkw, hlen⟩
  · rcases hkw with hkw | hkw | hkw
    · rcases args with _ | ⟨a, _ | ⟨b, rest⟩⟩
      · simp [hkw]
      · simp at hlen
      · simp [hkw]
    · rcases args with _ | ⟨a, _ | ⟨b, rest⟩⟩
      · simp [hkw, h1, h2]
      · simp at hlen
      · simp [hkw, h1, h2]
    · rcases args with _ | ⟨a, _ | ⟨b, rest⟩⟩
      · simp [hkw, h3, h4, h5]
      · simp at hlen
      · simp [hkw, h3, h4, h5]
  · rcases args with _ | ⟨a, _ | ⟨b, rest⟩⟩
    · simp [hkw, h6]
    · simp [hkw, h6]
    · simp only [List.length_cons] at hlen
      omega

theorem execute_rejects_wrong_arity_witness :
    (Execute id (fun _ => none) (⟨GoMap.empty⟩ : Store Unit) 7 "SET foo").1.1
        = Reply.value Iface.nil ∧
      (Execute id (fun _ => none) (⟨GoMap.empty⟩ : Store Unit) 7 "SET foo").1.2 ≠ none ∧
      (Execute id (fun _ => none) (⟨GoMap.empty⟩ : Store Unit) 7 "SET foo").2
        = ⟨GoMap.empty⟩ :=
  execute_rejects_wrong_arity id (fun _ => none) ⟨GoMap.empty⟩ 7 "SET foo" "SET" ["foo"]
    (by decide) (Or.inr ⟨by decide, by decide⟩)

/-- C8: for tokens `k`, `v` and a literal `d` that parses to a positive
duration `D`, the query SET k v d run at instant `t` returns no error, and a
query GET k that follows it returns the string `v` with no error when run at
`t'` with `t ≤ t' ≤ t + D`, and the error "key not found" when run at
`t' > t + D`; the same holds when a sweep ran in between, at any instant
`u` with `t ≤ u ≤ t'`. -/
theorem set_query_then_get_query {α : Type} (caseTable : Char → Char)
    (parseDuration : String → Option Duration) (s : Store α) (k v d : String)
    (D : Duration) (t : Time) (hk : isToken k = true) (hv : isToken v = true)
    (hd : isToken d = true) (hparse : parseDuration d = some D) (_hD : 0 < D) :
    (Execute caseTable parseDuration s t
        ("SET" ++ " " ++ k ++ " " ++ v ++ " " ++ d)).1.2 = none ∧
      (∀ t' : Time, t ≤ t' → t' ≤ t + D →
        (Execute caseTable parseDuration
          (Execute caseTable parseDuration s t
            ("SET" ++ " " ++ k ++ " " ++ v ++ " " ++ d)).2 t' ("GET" ++ " " ++ k)).1
          = (Reply.value (Iface.str v), none)) ∧
      (∀ t' : Time, t + D < t' →
        (Execute caseTable parseDuration
          (Execute caseTable parseDuration s t
            ("SET" ++ " " ++ k ++ " " ++ v ++ " " ++ d)).2 t' ("GET" ++ " " ++ k)).1
          = (Reply.value Iface.nil, some "key not found")) ∧
      (∀ u t' : Time, t ≤ u → u ≤ t' → t' ≤ t + D →
        (Execute caseTable parseDuration
          ((Execute caseTable parseDuration s t
            ("SET" ++ " " ++ k ++ " " ++ v ++ " " ++ d)).2.cleanupExpired u)
          t' ("GET" ++ " " ++ k)).1
          = (Reply.value (Iface.str v), none)) ∧
      (∀ u t' : Time, t ≤ u → u ≤ t' → t + D < t' →
        (Execute caseTable parseDuration
          ((Execute caseTable parseDuration s t
            ("SET" ++ " " ++ k ++ " " ++ v ++ " " ++ d)).2.cleanupExpired u)
          t' ("GET" ++ " " ++ k)).1
          = (Reply.value Iface.nil, some "key not found")) := by
  rw [Execute_SET_ttl caseTable parseDuration s t k v d D hk hv hd hparse]
  refine ⟨rfl, ?_, ?_, ?_, ?_⟩
  · intro t' _ hlive
    have hnot : ¬ (t + D < t') := not_lt.mpr hlive
    rw [Execute_GET caseTable parseDuration _ t' k hk]
    simp [executeGet, Store.Set, Store.Get, GoMap.get?_insert, Time.After, Time.Add, hnot]
  · intro t' hdead
    rw [Execute_GET caseTable parseDuration _ t' k hk]
    simp [executeGet, Store.Set, Store.Get, GoMap.get?_insert, Time.After, Time.Add, hdead]
  · intro u t' _ hu hlive
    have hnot : ¬ (t + D < t') := not_lt.mpr hlive
    have hnotu : ¬ (t + D < u) := not_lt.mpr (le_trans hu hlive)
    rw [Execute_GET caseTable parseDuration _ t' k hk]
    simp [executeGet, Store.Get, Store.get?_cleanupExpired, Store.Set, GoMap.get?_insert,
      Time.After, Time.Add, hnot, hnotu]
  · intro u t' _ _ hdead
    rw [Execute_GET caseTable parseDuration _ t' k hk]
    by_cases hsw : t + D < u
    · simp [executeGet, Store.Get, Store.get?_cleanupExpired, Store.Set, GoMap.get?_insert,
        Time.After, Time.Add, hsw]
    · simp [executeGet, Store.Get, Store.get?_cleanupExpired, Store.Set, GoMap.get?_insert,
        Time.After, Time.Add, hsw, hdead]

theorem set_query_then_get_query_witness :
    (Execute id (fun w => if w = "10s" then some (10 * Second) else none)
        (⟨GoMap.empty⟩ : Store Unit) 100 "SET foo bar 10s").1.2 = none ∧
      (Execute id (fun w => if w = "10s" then some (10 * Second) else none)
        (Execute id (fun w => if w = "10s" then some (10 * Second) else none)
          (⟨GoMap.empty⟩ : Store Unit) 100 "SET foo bar 10s").2
        (100 + 10 * Second) "GET foo").1 = (Reply.value (Iface.str "bar"), none) ∧
      (Execute id (fun w => if w = "10s" then some (10 * Second) else none)
        (Execute id (fun w => if w = "10s" then some (10 * Second) else none)
          (⟨GoMap.empty⟩ : Store Unit) 100 "SET foo bar 10s").2
        (101 + 10 * Second) "GET foo").1 = (Reply.value Iface.nil, some "key not found") :=
  have h := set_query_then_get_query id
    (fun w => if w = "10s" then some (10 * Second) else none)
    (⟨GoMap.empty⟩ : Store Unit) "foo" "bar" "10s" (10 * Second) 100
    (by decide) (by decide) (by decide) (by decide) (by decide)
  ⟨h.1, h.2.1 (100 + 10 * Second) (by decide) (by decide),
    h.2.2.1 (101 + 10 * Second) (by decide)⟩

/-- C9: for tokens `k` and `v`, the query SET k v (no TTL) run at instant `t`
returns no error and leaves the store binding `k` to the entry whose `Data`
is the string `v` and whose `ExpiresAt` is `t` plus 24 hours
(86400000000000 ns); the binding of every other key is unchanged. -/
theorem set_query_default_ttl {α : Type} (caseTable : Char → Char)
    (parseDuration : String → Option Duration) (s : Store α) (k v : String) (t : Time)
    (hk : isToken k = true) (hv : isToken v = true) :
    (Execute caseTable parseDuration s t ("SET" ++ " " ++ k ++ " " ++ v)).1
        = (Reply.value Iface.nil, none) ∧
      (Execute caseTable parseDuration s t ("SET" ++ " " ++ k ++ " " ++ v)).2.data.get? k
        = some ⟨Iface.str v, t + 86400000000000⟩ ∧
      ∀ k1 : String, k1 ≠ k →
        (Execute caseTable parseDuration s t ("SET" ++ " " ++ k ++ " " ++ v)).2.data.get? k1
          = s.data.get? k1 := by
  rw [Execute_SET_default caseTable parseDuration s t k v hk hv, day_eq]
  refine ⟨rfl, ?_, ?_⟩
  · simp [Store.Set, GoMap.get?_insert, Time.Add]
  · intro k1 hne
    have hne1 : ¬ k = k1 := fun h => hne h.symm
    simp [Store.Set, GoMap.get?_insert, hne1]

theorem set_query_default_ttl_witness :
    (Execute id (fun _ => none) (⟨GoMap.empty.insert "other" ⟨Iface.nil, 3⟩⟩ : Store Unit)
        100 "SET foo bar").1 = (Reply.value Iface.nil, none) ∧
      (Execute id (fun _ => none) (⟨GoMap.empty.insert "other" ⟨Iface.nil, 3⟩⟩ : Store Unit)
        100 "SET foo bar").2.data.get? "foo" = some ⟨Iface.str "bar", 86400000000100⟩ ∧
      (Execute id (fun _ => none) (⟨GoMap.empty.insert "other" ⟨Iface.nil, 3⟩⟩ : Store Unit)
        100 "SET foo bar").2.data.get? "other" = some ⟨Iface.nil, 3⟩ :=
  have h := set_query_default_ttl id (fun _ => none)
    (⟨GoMap.empty.insert "other" ⟨Iface.nil, 3⟩⟩ : Store Unit) "foo" "bar" 100
    (by decide) (by decide)
  ⟨h.1, h.2.1, h.2.2 "other" (by decide)⟩

/-! ## Loading a snapshot -/

/-- C10: with the file an optional byte string, `Load` returns no error and
leaves the store as it was when the file does not exist; it returns an error
and leaves the store as it was when the file exists and does not decode; when
the file exists and decodes, it returns no error and the store binds every
key exactly as the decoded mapping does.  Whatever `os.ReadFile` returned, a
`Load` that leaves a different store has read a file, decoded it and
returned no error. -/
theorem load_outcomes {α : Type} (unmarshal : List UInt8 → Except String (GoMap (Value α)))
    (s : Store α) :
    Load unmarshal (readFileOf none) s = (none, s) ∧
      (∀ (bytes : List UInt8) (err : String), unmarshal bytes = Except.error err →
        (Load unmarshal (readFileOf (some bytes)) s).1 ≠ none ∧
          (Load unmarshal (readFileOf (some bytes)) s).2 = s) ∧
      (∀ (bytes : List UInt8) (data : GoMap (Value α)), unmarshal bytes = Except.ok data →
        (Load unmarshal (readFileOf (some bytes)) s).1 = none ∧
          ∀ k : String,
            (Load unmarshal (readFileOf (some bytes)) s).2.data.get? k = data.get? k) ∧
      (∀ readFile : Except ReadError (List UInt8), (Load unmarshal readFile s).2 ≠ s →
        (Load unmarshal readFile s).1 = none ∧
          ∃ (bytes : List UInt8) (data : GoMap (Value α)),
            readFile = Except.ok bytes ∧ unmarshal bytes = Except.ok data) := by
  refine ⟨rfl, ?_, ?_, ?_⟩
  · intro bytes err herr
    simp [Load, readFileOf, herr]
  · intro bytes data hdata
    simp [Load, readFileOf, hdata, Store.get?_SetAll]
  · intro readFile hchanged
    cases readFile with
    | error e =>
      exfalso
      apply hchanged
      unfold Load
      by_cases hne : e.isNotExist = true <;> simp [hne]
    | ok bytes =>
      cases hdec : unmarshal bytes with
      | error err =>
        exfalso
        apply hchanged
        simp [Load, hdec]
      | ok data =>
        refine ⟨?_, bytes, data, rfl, hdec⟩
        simp [Load, hdec]

theorem load_outcomes_witness :
    Load (fun bytes => if bytes = [110] then Except.ok GoMap.empty else Except.error "bad")
        (readFileOf none) (⟨GoMap.empty.insert "foo" ⟨Iface.str "bar", 3⟩⟩ : Store Unit)
        = (none, ⟨GoMap.empty.insert "foo" ⟨Iface.str "bar", 3⟩⟩) ∧
      (Load (fun bytes => if bytes = [110] then Except.ok GoMap.empty else Except.error "bad")
        (readFileOf (some [0])) (⟨GoMap.empty.insert "foo" ⟨Iface.str "bar", 3⟩⟩ : Store Unit)).2
        = ⟨GoMap.empty.insert "foo" ⟨Iface.str "bar", 3⟩⟩ ∧
      (Load (fun bytes => if bytes = [110] then Except.ok GoMap.empty else Except.error "bad")
        (readFileOf (some [110]))
        (⟨GoMap.empty.insert "foo" ⟨Iface.str "bar", 3⟩⟩ : Store Unit)).2.data.get? "foo"
        = none :=
  have h := load_outcomes
    (fun bytes => if bytes = [110] then Except.ok GoMap.empty else Except.error "bad")
    (⟨GoMap.empty.insert "foo" ⟨Iface.str "bar", 3⟩⟩ : Store Unit)
  ⟨h.1, (h.2.1 [0] "bad" rfl).2, (h.2.2.1 [110] GoMap.empty rfl).2 "foo"⟩

/-! ## The sweep and the read path -/

theorem Get_cleanupExpired {α : Type} (s : Store α) (k : String) (now later : Time)
    (hle : now ≤ later) :
    ((s.cleanupExpired now).Get later k).1 = (s.Get later k).1 := by
  unfold Store.Get
  rw [Store.get?_cleanupExpired]
  cases hget : s.data.get? k with
  | none => rfl
  | some e =>
    by_cases hsw : e.ExpiresAt < now
    · have hlater : e.ExpiresAt < later := lt_of_lt_of_le hsw hle
      simp [Time.After, hsw, hlater]
    · by_cases hlater : e.ExpiresAt < later <;> simp [Time.After, hsw, hlater]

theorem Get_cleanupExpired_many {α : Type} (k : String) (later : Time) (sweeps : List Time)
    (hall : ∀ u ∈ sweeps, u ≤ later) (s : Store α) :
    ((sweeps.foldl Store.cleanupExpired s).Get later k).1 = (s.Get later k).1 := by
  induction sweeps generalizing s with
  | nil => rfl
  | cons u rest ih =>
    have hu : u ≤ later := hall u (List.mem_cons_self u rest)
    have hrest : ∀ w ∈ rest, w ≤ later := fun w hw => hall w (List.mem_cons_of_mem u hw)
    rw [List.foldl_cons, ih hrest, Get_cleanupExpired s k u later hu]

/-- C13: the sweep is invisible to `Get` when the clock does not go
backwards.  For instants `now ≤ later`, `Get(k)` at `later` on the store
swept at `now` returns the same `(value, found)` pair as `Get(k)` at `later`
on the store that was not swept; and the same holds after any number of
sweeps, run at any instants that are not after `later`. -/
theorem sweep_invisible_to_get {α : Type} (s : Store α) (k : String) (now later : Time)
    (hle : now ≤ later) :
    ((s.cleanupExpired now).Get later k).1 = (s.Get later k).1 ∧
      ∀ sweeps : List Time, (∀ u ∈ sweeps, u ≤ later) →
        ((sweeps.foldl Store.cleanupExpired s).Get later k).1 = (s.Get later k).1 :=
  ⟨Get_cleanupExpired s k now later hle,
    fun sweeps hall => Get_cleanupExpired_many k later sweeps hall s⟩

theorem sweep_invisible_to_get_witness :
    (((⟨(GoMap.empty.insert "old" ⟨Iface.str "x", 5⟩).insert "new"
        ⟨Iface.str "y", 50⟩⟩ : Store Unit).cleanupExpired 10).Get 20 "old").1
      = ((⟨(GoMap.empty.insert "old" ⟨Iface.str "x", 5⟩).insert "new"
        ⟨Iface.str "y", 50⟩⟩ : Store Unit).Get 20 "old").1 ∧
    (((⟨(GoMap.empty.insert "old" ⟨Iface.str "x", 5⟩).insert "new"
        ⟨Iface.str "y", 50⟩⟩ : Store Unit).cleanupExpired 10).Get 20 "new").1
      = (Iface.str "y", true) :=
  ⟨(sweep_invisible_to_get
      (⟨(GoMap.empty.insert "old" ⟨Iface.str "x", 5⟩).insert "new"
        ⟨Iface.str "y", 50⟩⟩ : Store Unit) "old" 10 20 (by decide)).1,
    by decide⟩

end GoKV
